import Mathlib

/- Shallow embedding of the nocodb-api client (src/nocodb/Record.py and
   src/nocodb/Table.py).  JSON values are modelled by an inductive type,
   Python dictionaries by association lists, and the HTTP transport by
   explicit response values carried in an environment record.  Comments
   cite line numbers of the Python sources. -/

/-- JSON value as produced by response.json().  Numbers are modelled as
integers, since only identifier arithmetic matters in this client. -/
inductive Json where
  | null : Json
  | bool : Bool → Json
  | num : Int → Json
  | str : String → Json
  | arr : List Json → Json
  | obj : List (String × Json) → Json

/-- Python dict lookup on an association list (first binding wins). -/
def lookupJ (fs : List (String × Json)) (k : String) : Option Json :=
  (fs.find? (fun p => p.1 == k)).map (fun p => p.2)

/-- Python truth-value test: None, False, 0, the empty string, the empty
list and the empty dict are falsy. -/
def isFalsy : Json → Bool
  | .null => true
  | .bool b => !b
  | .num n => n == 0
  | .str s => s == ""
  | .arr l => l.isEmpty
  | .obj l => l.isEmpty

def isNull : Json → Bool
  | .null => true
  | _ => false

/-- Numeric value of a digit string, most significant digit first. -/
def digitsVal (l : List Char) : Nat :=
  l.foldl (fun a c => a * 10 + (c.toNat - 48)) 0

def digitChars (l : List Char) : Bool := !l.isEmpty && l.all Char.isDigit

/-- Python int() applied to a string: surrounding spaces are ignored, an
optional sign is followed by at least one digit, anything else raises. -/
def parseIntStr (s : String) : Option Int :=
  let l := s.toList.dropWhile (fun c => c == ' ')
  let l := (l.reverse.dropWhile (fun c => c == ' ')).reverse
  match l with
  | '-' :: ds => if digitChars ds then some (-(Int.ofNat (digitsVal ds))) else none
  | '+' :: ds => if digitChars ds then some (Int.ofNat (digitsVal ds)) else none
  | ds => if digitChars ds then some (Int.ofNat (digitsVal ds)) else none

/-- Python int() applied to a JSON value: numbers pass through, booleans
map to 0/1, strings are parsed; none models the ValueError or TypeError
raised on anything else. -/
def pyToInt : Json → Option Int
  | .num n => some n
  | .bool b => some (if b then 1 else 0)
  | .str s => parseIntStr s
  | _ => none

/-- Record.py line 104: drop None entries, then apply int() to each
candidate; none models the exception raised by an unparseable entry. -/
def coerceIds (l : List Json) : Option (List Int) :=
  (l.filter (fun j => !isNull j)).mapM pyToInt

namespace NocoRecord

/-- Modelled from the spec: the Column class (src/nocodb/Column.py is not
among the sources).  A Column is an immutable descriptor carrying a title
and an optional linked_table_id; hasattr(column, "linked_table_id") is
modelled as linked_table_id.isSome. -/
structure Column where
  title : String
  linked_table_id : Option String

structure Table where
  table_id : String
  title : String
deriving DecidableEq, Repr

structure Rec where
  record_id : Int
deriving DecidableEq, Repr

/-- Outcome of the HTTP call of Record.py lines 52-62: the call itself may
raise (callError), response.json() may raise (parseError), or a JSON body
is obtained. -/
inductive LinkResp where
  | callError (msg : String)
  | parseError (msg : String)
  | ok (body : Json)

/-- Environment of one get_linked_records call: the link-endpoint
response, the tables of the Base of this Record, noco_db.get_table, and
the get_records_by_id behaviour of each table. -/
structure Env where
  resp : LinkResp
  tables : List Table
  tableById : String → Table
  resolve : Table → List Json → List Rec

/-- Record.py lines 83-89: scan one field value of the response body for
Id bearers (elements of a list value, or a dict value, that carry "Id"). -/
def scanField : Json → List Json
  | .arr xs => xs.filterMap (fun x => match x with
      | .obj ofs => lookupJ ofs "Id"
      | _ => none)
  | .obj ofs => (lookupJ ofs "Id").toList
  | _ => []

/-- Record.py lines 81-89: the general scan over every top-level field. -/
def generalScan (fs : List (String × Json)) : List Json :=
  fs.foldr (fun p acc => scanField p.2 ++ acc) []

/-- Record.py line 81: the general scan runs only when the shape dispatch
collected nothing. -/
def withGeneral (fs : List (String × Json)) (l : List Json) : List Json :=
  if l.isEmpty then generalScan fs else l

/-- Substring test for "Id", mirroring the Python expression
\x22Id\x22 in l when l is a string. -/
def containsId : List Char → Bool
  | [] => false
  | c :: rest =>
    (c == 'I' && (match rest with | d :: _ => d == 'd' | [] => false))
    || containsId rest

/-- Record.py line 69: the comprehension over response_data list.  A dict
element contributes its "Id" value when the key is present; a list element
is skipped; a string element raises exactly when it contains "Id" as a
substring; any other element raises.  none models the raise. -/
def listElemIds (xs : List Json) : Option (List Json) :=
  xs.foldr (fun x acc => match acc with
    | none => none
    | some rest => match x with
      | .obj ofs => match lookupJ ofs "Id" with
          | some v => some (v :: rest)
          | none => some rest
      | .arr _ => some rest
      | .str s => if containsId s.toList then none else some rest
      | _ => none) (some [])

/-- Outcome of the shape dispatch: early is the immediate return [] of
line 67 (a present but falsy "list" field); ids is the list of collected
raw identifier values. -/
inductive ParseOut where
  | early
  | ids (l : List Json)

/-- Record.py lines 64-89, for a dict response body: the shape dispatch of
lines 65-78 followed by the general scan of lines 81-89; none models an
exception raised while iterating a "list" field. -/
def extractIds (fs : List (String × Json)) : Option ParseOut :=
  match lookupJ fs "list" with
  | some lv =>
    if isFalsy lv then some .early
    else
      match lv with
      | .arr xs =>
        match listElemIds xs with
        | none => none
        | some l => some (.ids (withGeneral fs l))
      | .obj ofs =>
        match lookupJ ofs "Id" with
        | some v => some (.ids (withGeneral fs [v]))
        | none => some (.ids (withGeneral fs []))
      | _ => some (.ids (withGeneral fs []))
  | none =>
    match lookupJ fs "Id" with
    | some v => some (.ids (withGeneral fs [v]))
    | none =>
      some (.ids (withGeneral fs (fs.filterMap (fun p => match p.2 with
        | .obj ofs => lookupJ ofs "Id"
        | _ => none))))

/-- Record.py lines 93-96 and 99-101 (both fallbacks are the same code):
the direct foreign-key attribute named {column.title}_id of the local
attribute bag, used when present and truthy. -/
def fkIds (col : Column) (md : List (String × Json)) : List Json :=
  match lookupJ md (col.title ++ "_id") with
  | some v => if isFalsy v then [] else [v]
  | none => []

inductive Gather where
  | early
  | ids (l : List Json)

/-- Record.py lines 59-101: the identifier-gathering stage.  A body that
fails to parse, raises while being dissected, or yields nothing, falls
back to the direct foreign key.  A non-dict body always ends with
record_ids empty (each shape either raises a TypeError caught by the
inner handler of line 97, or iterates without collecting), so it takes
the same fallback. -/
def gatherIds (resp : LinkResp) (col : Column) (md : List (String × Json)) :
    Gather :=
  match resp with
  | .callError _ => .ids []
  | .parseError _ => .ids (fkIds col md)
  | .ok body =>
    match body with
    | .obj fs =>
      match extractIds fs with
      | none => .ids (fkIds col md)
      | some .early => .early
      | some (.ids l) => .ids (if l.isEmpty then fkIds col md else l)
    | _ => .ids (fkIds col md)

/-- Message of the exception raised by int() on an unparseable entry. -/
def intErrorMsg : String := "invalid literal for int()"

/-- Python str.endswith(\x22s\x22). -/
def endsInS (s : String) : Bool :=
  match s.toList.getLast? with
  | some c => c == 's'
  | none => false

/-- Python slicing s[:-1]. -/
def dropLast1 (s : String) : String := ⟨s.toList.dropLast⟩

/-- Record.py lines 110-133: resolution of the target table.  An
authoritative linked_table_id is used directly; otherwise the Base tables
are searched by exact title, then, for a title ending in "s", by the
title with its last character stripped; otherwise line 133 raises. -/
def resolveTable (env : Env) (col : Column) : Except String Table :=
  match col.linked_table_id with
  | some tid => .ok (env.tableById tid)
  | none =>
    match env.tables.find? (fun t => t.title == col.title) with
    | some t => .ok t
    | none =>
      if endsInS col.title then
        match env.tables.find? (fun t => t.title == dropLast1 col.title) with
        | some t => .ok t
        | none =>
          .error ("Could not determine linked table for column " ++ col.title)
      else
        .error ("Could not determine linked table for column " ++ col.title)

/-- Record.py lines 51-136: the body of the outer try.  An error value is
an exception escaping to the handler of line 138. -/
def tryBody (env : Env) (col : Column) (md : List (String × Json)) :
    Except String (List Rec) :=
  match env.resp with
  | .callError m => .error m
  | resp =>
    match gatherIds resp col md with
    | .early => .ok []
    | .ids l =>
      match coerceIds l with
      | none => .error intErrorMsg
      | some is =>
        if is.isEmpty then .ok []
        else
          match resolveTable env col with
          | .ok t => .ok (env.resolve t (is.map Json.num))
          | .error m => .error m

/-- Record.py lines 41-161: get_linked_records, with the recovery handler
of lines 138-161 wrapped around the main body. -/
def get_linked_records (env : Env) (col : Column) (md : List (String × Json)) :
    Except String (List Rec) :=
  match tryBody env col md with
  | .ok r => .ok r
  | .error e =>
    match lookupJ md (col.title ++ "_id") with
    | some v =>
      if isFalsy v then .error e
      else
        match env.tables.find? (fun t => t.title == col.title) with
        | some t => .ok (env.resolve t [v])
        | none => .error ("Could not find linked table: " ++ col.title)
    | none => .error e

end NocoRecord

namespace NocoRecord

/-- When the gathering stage produced identifiers that coerce to a
nonempty integer list, the body of the try reduces to resolving the
target table and delegating to its batch resolver. -/
theorem tryBody_eq_resolve (env : Env) (col : Column) (md : List (String × Json))
    (l : List Json) (is : List Int)
    (hg : gatherIds env.resp col md = .ids l)
    (hc : coerceIds l = some is)
    (hne : is ≠ []) :
    tryBody env col md =
      (resolveTable env col).map (fun t => env.resolve t (is.map Json.num)) := by
  have hemp : is.isEmpty = false := by
    cases is with
    | nil => exact absurd rfl hne
    | cons a t => rfl
  cases henv : env.resp with
  | callError m =>
    rw [henv] at hg
    simp only [gatherIds] at hg
    injection hg with h
    rw [← h] at hc
    rw [show coerceIds ([] : List Json) = some [] from rfl] at hc
    injection hc with h2
    exact absurd h2.symm hne
  | parseError m =>
    rw [henv] at hg
    simp only [tryBody, henv, hg, hc, hemp]
    cases resolveTable env col <;> simp [Except.map]
  | ok body =>
    rw [henv] at hg
    simp only [tryBody, henv, hg, hc, hemp]
    cases resolveTable env col <;> simp [Except.map]

end NocoRecord

namespace NocoRecord

theorem glr_of_tryBody_ok (env : Env) (col : Column) (md : List (String × Json))
    (r : List Rec) (h : tryBody env col md = .ok r) :
    get_linked_records env col md = .ok r := by
  simp [get_linked_records, h]

/-- C1: target-table resolution of get_linked_records. -/
theorem c1_target_table (env : Env) (col : Column) (md : List (String × Json))
    (l : List Json) (is : List Int)
    (hg : gatherIds env.resp col md = .ids l)
    (hc : coerceIds l = some is)
    (hne : is ≠ []) :
    (∀ tid, col.linked_table_id = some tid →
      get_linked_records env col md =
        .ok (env.resolve (env.tableById tid) (is.map Json.num)))
    ∧ (∀ t, col.linked_table_id = none →
        env.tables.find? (fun u => u.title == col.title) = some t →
        get_linked_records env col md = .ok (env.resolve t (is.map Json.num)))
    ∧ (∀ t, col.linked_table_id = none →
        env.tables.find? (fun u => u.title == col.title) = none →
        endsInS col.title = true →
        env.tables.find? (fun u => u.title == dropLast1 col.title) = some t →
        get_linked_records env col md = .ok (env.resolve t (is.map Json.num)))
    ∧ (col.linked_table_id = none →
        env.tables.find? (fun u => u.title == col.title) = none →
        (endsInS col.title = false ∨
          env.tables.find? (fun u => u.title == dropLast1 col.title) = none) →
        (get_linked_records env col md =
            .error ("Could not determine linked table for column " ++ col.title)
          ∨ get_linked_records env col md =
            .error ("Could not find linked table: " ++ col.title))) := by
  have hbody := tryBody_eq_resolve env col md l is hg hc hne
  refine ⟨?_, ?_, ?_, ?_⟩
  · intro tid hid
    apply glr_of_tryBody_ok
    rw [hbody]
    simp [resolveTable, hid, Except.map]
  · intro t hid hfind
    apply glr_of_tryBody_ok
    rw [hbody]
    simp [resolveTable, hid, hfind, Except.map]
  · intro t hid hfind hs hfind2
    apply glr_of_tryBody_ok
    rw [hbody]
    simp [resolveTable, hid, hfind, hs, hfind2, Except.map]
  · intro hid hfind hrest
    have herr : resolveTable env col =
        .error ("Could not determine linked table for column " ++ col.title) := by
      rcases hrest with hs | hfind2
      · simp [resolveTable, hid, hfind, hs]
      · rcases hs' : endsInS col.title with _ | _
        · simp [resolveTable, hid, hfind, hs']
        · simp [resolveTable, hid, hfind, hs', hfind2]
    have htry : tryBody env col md =
        .error ("Could not determine linked table for column " ++ col.title) := by
      rw [hbody, herr]; rfl
    unfold get_linked_records
    rw [htry]
    cases hfk : lookupJ md (col.title ++ "_id") with
    | none => left; rfl
    | some v =>
      cases hfv : isFalsy v with
      | true => left; simp [hfv]
      | false =>
        right
        simp [hfv, hfind]

end NocoRecord

namespace NocoRecord

def envC1w : Env :=
  { resp := .ok (.obj [("Id", .num 3)])
    tables := [⟨"decoy", "X"⟩]
    tableById := fun tid => ⟨tid, "target"⟩
    resolve := fun t _ => if t.table_id == "T9" then [⟨42⟩] else [⟨0⟩] }

/-- Witness for C1 at a concrete input: the authoritative id T9 wins even
though a Base table shares the title of the column. -/
theorem c1_target_table_witness :
    get_linked_records envC1w ⟨"X", some "T9"⟩ [] = .ok [⟨42⟩] := by
  have h := (c1_target_table envC1w ⟨"X", some "T9"⟩ [] [.num 3] [3] rfl rfl
    (by decide)).1 "T9" rfl
  exact h

/-- C2: shape-directed parsing of the link-endpoint response. -/
theorem c2_response_shapes (col : Column) (md : List (String × Json)) (msg : String)
    (lt : Option String) :
    gatherIds (.ok (.obj [("list", .arr [.obj [("Id", .num 3)], .obj [("Id", .num 5)]])]))
        col md = .ids [.num 3, .num 5]
    ∧ coerceIds [.num 3, .num 5] = some [3, 5]
    ∧ gatherIds (.ok (.obj [("Id", .num 7)])) col md = .ids [.num 7]
    ∧ coerceIds [.num 7] = some [7]
    ∧ gatherIds (.parseError msg) ⟨"Books", lt⟩ [("Books_id", .num 9)] = .ids [.num 9]
    ∧ coerceIds [.num 9] = some [9] :=
  ⟨rfl, rfl, rfl, rfl, rfl, rfl⟩

def envC3cx : Env :=
  { resp := .ok (.obj [("list", .arr [])])
    tables := [⟨"t1", "Books"⟩]
    tableById := fun _ => ⟨"t1", "Books"⟩
    resolve := fun _ _ => [⟨9⟩] }

/-- Counterexample to C3: the response has a "list" field that is an empty
array and the attribute bag carries Books_id = 9, yet the call returns []
immediately (line 67) without attempting the foreign-key fallback, whose
use would have produced the record with id 9. -/
theorem c3_counterexample :
    get_linked_records envC3cx ⟨"Books", none⟩ [("Books_id", Json.num 9)] = .ok []
    ∧ get_linked_records envC3cx ⟨"Books", none⟩ [("Books_id", Json.num 9)] ≠
        .ok [⟨9⟩] := by
  constructor
  · rfl
  · intro h
    rw [show get_linked_records envC3cx ⟨"Books", none⟩ [("Books_id", Json.num 9)]
      = .ok [] from rfl] at h
    simp at h

/-- C3 as amended: a present but falsy "list" field returns [] at once,
skipping the fallback; every other way for stage 1 to come up empty
(a dict body whose dissection collects nothing, or a body that cannot be
parsed) falls through to the direct foreign key, which, when present and
truthy, is used as the sole identifier. -/
theorem c3_amended (env : Env) (col : Column) (md : List (String × Json)) :
    (∀ fs lv, env.resp = .ok (.obj fs) → lookupJ fs "list" = some lv →
      isFalsy lv = true → get_linked_records env col md = .ok [])
    ∧ (∀ fs, extractIds fs = some (.ids []) →
        gatherIds (.ok (.obj fs)) col md = .ids (fkIds col md))
    ∧ (∀ msg, gatherIds (.parseError msg) col md = .ids (fkIds col md))
    ∧ (∀ v, lookupJ md (col.title ++ "_id") = some v → isFalsy v = false →
        fkIds col md = [v]) := by
  refine ⟨?_, ?_, ?_, ?_⟩
  · intro fs lv hresp hlist hfalsy
    have hga : gatherIds env.resp col md = .early := by
      rw [hresp]
      simp [gatherIds, extractIds, hlist, hfalsy]
    have htry : tryBody env col md = .ok [] := by
      unfold tryBody
      cases henv : env.resp with
      | callError m => rw [henv] at hresp; cases hresp
      | parseError m => rw [henv] at hresp; cases hresp
      | ok body =>
        rw [henv] at hga
        simp [hga]
    simp [get_linked_records, htry]
  · intro fs hext
    simp [gatherIds, hext]
  · intro msg
    rfl
  · intro v hv hfv
    simp [fkIds, hv, hfv]

def envC4cx : Env :=
  { resp := .ok (.obj [("Id", .str "abc")])
    tables := []
    tableById := fun _ => ⟨"t1", "Books"⟩
    resolve := fun _ _ => [] }

/-- Counterexample to C4: the single candidate identifier "abc" is not
parseable; instead of being dropped, int() raises, the recovery handler
finds no foreign key, and the original exception is re-raised, so the
call errors rather than returning []. -/
theorem c4_counterexample :
    get_linked_records envC4cx ⟨"Books", none⟩ [] = .error intErrorMsg
    ∧ get_linked_records envC4cx ⟨"Books", none⟩ [] ≠ .ok [] := by
  constructor
  · rfl
  · intro h
    rw [show get_linked_records envC4cx ⟨"Books", none⟩ [] = .error intErrorMsg
      from rfl] at h
    cases h

/-- C4 as amended: None entries are dropped by the coercion; when the
survivors coerce and the result is empty the call returns [] (not an
error); but an unparseable entry makes int() raise, diverting the call to
the recovery handler, which re-raises when no direct foreign key exists. -/
theorem c4_amended (env : Env) (col : Column) (md : List (String × Json))
    (l : List Json)
    (hcall : ∀ m, env.resp ≠ .callError m)
    (hg : gatherIds env.resp col md = .ids l) :
    (∀ ds, coerceIds (Json.null :: ds) = coerceIds ds)
    ∧ (coerceIds l = some [] → get_linked_records env col md = .ok [])
    ∧ (coerceIds l = none → lookupJ md (col.title ++ "_id") = none →
        get_linked_records env col md = .error intErrorMsg) := by
  refine ⟨?_, ?_, ?_⟩
  · intro ds
    simp [coerceIds, isNull]
  · intro hc
    have htry : tryBody env col md = .ok [] := by
      unfold tryBody
      cases henv : env.resp with
      | callError m => exact absurd henv (hcall m)
      | parseError m =>
        rw [henv] at hg
        simp [hg, hc]
      | ok body =>
        rw [henv] at hg
        simp [hg, hc]
    simp [get_linked_records, htry]
  · intro hc hfk
    have htry : tryBody env col md = .error intErrorMsg := by
      unfold tryBody
      cases henv : env.resp with
      | callError m => exact absurd henv (hcall m)
      | parseError m =>
        rw [henv] at hg
        simp [hg, hc]
      | ok body =>
        rw [henv] at hg
        simp [hg, hc]
    simp [get_linked_records, htry, hfk]

/-- C5: the recovery handler of lines 138-161. -/
theorem c5_recovery (env : Env) (col : Column) (md : List (String × Json))
    (e : String)
    (h : tryBody env col md = .error e) :
    (∀ v t, lookupJ md (col.title ++ "_id") = some v → isFalsy v = false →
      env.tables.find? (fun u => u.title == col.title) = some t →
      get_linked_records env col md = .ok (env.resolve t [v]))
    ∧ (∀ v, lookupJ md (col.title ++ "_id") = some v → isFalsy v = false →
        env.tables.find? (fun u => u.title == col.title) = none →
        get_linked_records env col md =
          .error ("Could not find linked table: " ++ col.title))
    ∧ (lookupJ md (col.title ++ "_id") = none →
        get_linked_records env col md = .error e)
    ∧ (∀ v, lookupJ md (col.title ++ "_id") = some v → isFalsy v = true →
        get_linked_records env col md = .error e) := by
  refine ⟨?_, ?_, ?_, ?_⟩
  · intro v t hv hfv hfind
    simp [get_linked_records, h, hv, hfv, hfind]
  · intro v hv hfv hfind
    simp [get_linked_records, h, hv, hfv, hfind]
  · intro hv
    simp [get_linked_records, h, hv]
  · intro v hv hfv
    simp [get_linked_records, h, hv, hfv]

def envC5w : Env :=
  { resp := .callError "boom"
    tables := [⟨"t", "Widget"⟩]
    tableById := fun _ => ⟨"t", "Widget"⟩
    resolve := fun _ l => if l.length == 1 then [⟨7⟩] else [] }

/-- Witness for C5 at a concrete input: the live call raises, the direct
foreign key Widget_id = 5 is used against the exact-title table, and one
record is returned. -/
theorem c5_recovery_witness :
    get_linked_records envC5w ⟨"Widget", none⟩ [("Widget_id", Json.num 5)] =
      .ok [⟨7⟩] := by
  have h := (c5_recovery envC5w ⟨"Widget", none⟩ [("Widget_id", Json.num 5)]
    "boom" rfl).1 (Json.num 5) ⟨"t", "Widget"⟩ rfl rfl rfl
  exact h

end NocoRecord

namespace NocoRecord

def envC3w : Env :=
  { resp := .ok (.obj [("list", .arr [])])
    tables := []
    tableById := fun _ => ⟨"t", "Books"⟩
    resolve := fun _ _ => [] }

/-- Witness for the amended C3 at a concrete input. -/
theorem c3_amended_witness :
    get_linked_records envC3w ⟨"Books", none⟩ [("Books_id", Json.num 9)] = .ok []
    ∧ fkIds ⟨"Books", none⟩ [("Books_id", Json.num 9)] = [Json.num 9] := by
  have h := c3_amended envC3w ⟨"Books", none⟩ [("Books_id", Json.num 9)]
  exact ⟨h.1 [("list", Json.arr [])] (Json.arr []) rfl rfl rfl,
    h.2.2.2 (Json.num 9) rfl rfl⟩

def envC4w : Env :=
  { resp := .ok (.obj [("Id", .null)])
    tables := []
    tableById := fun _ => ⟨"t", "Books"⟩
    resolve := fun _ _ => [] }

/-- Witness for the amended C4 at a concrete input: a null identifier is
dropped and the empty result yields [], not an error. -/
theorem c4_amended_witness :
    get_linked_records envC4w ⟨"Books", none⟩ [] = .ok [] := by
  have h := c4_amended envC4w ⟨"Books", none⟩ [] [Json.null]
    (fun m hm => by cases hm) rfl
  exact h.2.1 rfl

end NocoRecord
namespace NocoTable

structure Row where
  rid : Int
deriving DecidableEq, Repr

/-- Canonical paged server of section 6 of the spec: the list endpoint
returns the slice rows[offset : offset + limit] and reports isLastPage
exactly when offset + limit reaches the end of the data. -/
def pageList (rows : List Row) (off lim : Nat) : List Row :=
  (rows.drop off).take lim

/-- Table.py lines 118-131 in unbounded mode: offset is seeded with 0 and
limit with 1000, the offset advances by the limit after every page
whatever the page contained, and the loop stops exactly when the
response reports isLastPage.  The second component counts requests. -/
def getAllLoop (rows : List Row) (off : Nat) : List Row × Nat :=
  if rows.length ≤ off + 1000 then (pageList rows off 1000, 1)
  else
    let rest := getAllLoop rows (off + 1000)
    (pageList rows off 1000 ++ rest.1, rest.2 + 1)
termination_by rows.length - off
decreasing_by omega

/-- Table.py lines 105-133: get_records against the canonical paged
server.  dflt is the page size the server applies when the caller gives
an offset without a limit; the client never chooses it.  The second
component counts the requests issued. -/
def get_records (rows : List Row) (dflt : Nat) (pOff pLim : Option Nat) :
    List Row × Nat :=
  if pOff.isSome || pLim.isSome then
    (pageList rows (pOff.getD 0) (pLim.getD dflt), 1)
  else getAllLoop rows 0

theorem getAllLoop_eq_aux (rows : List Row) : ∀ (k off : Nat), rows.length - off = k →
    getAllLoop rows off = (rows.drop off, (rows.length - off - 1) / 1000 + 1) := by
  intro k
  induction k using Nat.strong_induction_on with
  | _ k ih =>
    intro off hk
    rw [getAllLoop.eq_def]
    by_cases h : rows.length ≤ off + 1000
    · rw [if_pos h]
      have hlen : (rows.drop off).length ≤ 1000 := by
        simp only [List.length_drop]
        omega
      have hdiv : (rows.length - off - 1) / 1000 = 0 := Nat.div_eq_of_lt (by omega)
      simp [pageList, List.take_of_length_le hlen, hdiv]
    · rw [if_neg h]
      have hrec := ih (rows.length - (off + 1000)) (by omega) (off + 1000) rfl
      simp only [hrec, pageList]
      refine Prod.ext ?_ ?_
      · rw [show rows.drop (off + 1000) = (rows.drop off).drop 1000 by
          rw [List.drop_drop, Nat.add_comm]]
        exact List.take_append_drop 1000 (rows.drop off)
      · have h1 : rows.length - (off + 1000) - 1 = (rows.length - off - 1) - 1000 := by
          omega
        have h2 : (1000 : Nat) ≤ rows.length - off - 1 := by omega
        rw [h1, ← Nat.div_eq_sub_div (by omega) h2]

theorem getAllLoop_eq (rows : List Row) (off : Nat) :
    getAllLoop rows off = (rows.drop off, (rows.length - off - 1) / 1000 + 1) :=
  getAllLoop_eq_aux rows (rows.length - off) off rfl

end NocoTable

namespace NocoTable

/-- C6 as amended: bounded calls issue exactly one request and return
that page as-is; an unbounded call returns every row and issues
(N - 1) / 1000 + 1 requests, which equals the ceiling of N / 1000 as
soon as N is at least 1 (for N = 0 one request is still issued). -/
theorem c6_pagination (rows : List Row) (dflt : Nat) :
    (∀ pOff pLim, pOff.isSome ∨ pLim.isSome →
      get_records rows dflt pOff pLim =
        (pageList rows (pOff.getD 0) (pLim.getD dflt), 1))
    ∧ get_records rows dflt none none = (rows, (rows.length - 1) / 1000 + 1)
    ∧ (1 ≤ rows.length →
        (rows.length - 1) / 1000 + 1 = (rows.length + 999) / 1000) := by
  refine ⟨?_, ?_, ?_⟩
  · intro pOff pLim hsome
    have hb : (pOff.isSome || pLim.isSome) = true := by
      rcases hsome with h | h <;> simp [h]
    simp [get_records, hb]
  · have h := getAllLoop_eq rows 0
    simp only [get_records, Option.isSome_none, Bool.or_self, Bool.false_eq_true,
      if_false, h, List.drop_zero, Nat.sub_zero]
  · intro hpos
    have : rows.length - 1 + 1000 = rows.length + 999 := by omega
    rw [← this, Nat.add_div_right _ (by omega)]

/-- Counterexample to C6: a server holding zero rows still receives one
request in unbounded mode, while the ceiling of 0 / 1000 is 0 requests. -/
theorem c6_counterexample :
    get_records [] 25 none none = (([] : List Row), 1)
    ∧ (get_records [] 25 none none).2 ≠ ((List.length ([] : List Row)) + 999) / 1000 := by
  have h : get_records [] 25 none none = (([] : List Row), 1) := by
    rw [show get_records [] 25 none none = getAllLoop [] 0 from rfl, getAllLoop_eq]
    rfl
  refine ⟨h, ?_⟩
  rw [h]
  decide

/-- Witness for the amended C6 at a concrete input: a bounded call
returns its single page in one request, and an unbounded call over three
rows returns them all in (3 + 999) / 1000 = 1 request. -/
theorem c6_pagination_witness :
    get_records [⟨1⟩, ⟨2⟩, ⟨3⟩] 25 (some 1) (some 2) = ([⟨2⟩, ⟨3⟩], 1)
    ∧ get_records [⟨1⟩, ⟨2⟩, ⟨3⟩] 25 none none = ([⟨1⟩, ⟨2⟩, ⟨3⟩], 1)
    ∧ ((List.length [(⟨1⟩ : Row), ⟨2⟩, ⟨3⟩]) + 999) / 1000 = 1 := by
  have h := c6_pagination [(⟨1⟩ : Row), ⟨2⟩, ⟨3⟩] 25
  refine ⟨?_, ?_, ?_⟩
  · rw [h.1 (some 1) (some 2) (Or.inl rfl)]
    rfl
  · rw [h.2.1]
    rfl
  · have h3 := h.2.2 (by decide)
    rw [← h3]
    decide

end NocoTable

namespace NocoTable

/-- Table.py lines 140-142: get_records_by_id joins the identifiers into
an Id-in filter and delegates to get_records with neither offset nor
limit supplied; the canonical server answers the filtered listing. -/
def get_records_by_id (rows : List Row) (ids : List Int) : List Row × Nat :=
  get_records (rows.filter (fun r => ids.contains r.rid)) 0 none none

/-- C7 as amended: over a table with duplicate-free row identifiers the
batch resolver returns at most one row per requested identifier, and the
empty identifier list returns the empty list - but one page request is
still issued, not zero. -/
theorem c7_batch_by_id (rows : List Row) (ids : List Int)
    (hnd : (rows.map Row.rid).Nodup) :
    (get_records_by_id rows ids).1.length ≤ ids.length
    ∧ (get_records_by_id rows []).1 = []
    ∧ (get_records_by_id rows []).2 = 1 := by
  have hfst : ∀ js, (get_records_by_id rows js).1 =
      rows.filter (fun r => js.contains r.rid) := by
    intro js
    unfold get_records_by_id
    rw [show get_records (rows.filter (fun r => js.contains r.rid)) 0 none none
      = getAllLoop (rows.filter (fun r => js.contains r.rid)) 0 from rfl]
    rw [getAllLoop_eq]
    simp
  have hempty : rows.filter (fun r => List.contains [] r.rid) = [] := by
    simp [List.contains]
  refine ⟨?_, ?_, ?_⟩
  · rw [hfst ids]
    set f := rows.filter (fun r => ids.contains r.rid) with hf
    have hsub : List.Sublist (f.map Row.rid) (rows.map Row.rid) :=
      (List.filter_sublist rows).map Row.rid
    have hndf : (f.map Row.rid).Nodup := hnd.sublist hsub
    have hsubset : (f.map Row.rid).toFinset ⊆ ids.toFinset := by
      intro x hx
      rw [List.mem_toFinset] at hx
      rcases List.mem_map.mp hx with ⟨r, hr, hrx⟩
      rw [hf] at hr
      have := List.of_mem_filter hr
      rw [List.mem_toFinset, ← hrx]
      simpa using this
    calc f.length = (f.map Row.rid).length := (List.length_map f Row.rid).symm
      _ = (f.map Row.rid).toFinset.card := (List.toFinset_card_of_nodup hndf).symm
      _ ≤ ids.toFinset.card := Finset.card_le_card hsubset
      _ ≤ ids.length := List.toFinset_card_le ids
  · rw [hfst [], hempty]
  · unfold get_records_by_id
    rw [hempty]
    rw [show get_records [] 0 none none = getAllLoop [] 0 from rfl, getAllLoop_eq]
    decide

/-- Counterexample to C7: the empty identifier list still issues one page
request (the while loop of get_records always runs once), not zero. -/
theorem c7_counterexample :
    get_records_by_id [⟨1⟩] [] = ([], 1)
    ∧ (get_records_by_id [⟨1⟩] []).2 ≠ 0 := by
  have h : get_records_by_id [⟨1⟩] [] = ([], 1) := by
    unfold get_records_by_id
    rw [show (List.filter (fun r => List.contains [] r.rid) [⟨1⟩]) = ([] : List Row)
      from rfl]
    rw [show get_records [] 0 none none = getAllLoop [] 0 from rfl, getAllLoop_eq]
    rfl
  exact ⟨h, by rw [h]; decide⟩

/-- Witness for the amended C7 at a concrete input. -/
theorem c7_batch_by_id_witness :
    (get_records_by_id [⟨1⟩, ⟨2⟩] [2, 5, 2]).1.length ≤ 3
    ∧ (get_records_by_id [⟨1⟩, ⟨2⟩] []).1 = []
    ∧ (get_records_by_id [⟨1⟩, ⟨2⟩] []).2 = 1 := by
  have h := c7_batch_by_id [⟨1⟩, ⟨2⟩] [2, 5, 2] (by decide)
  exact ⟨h.1, h.2.1, h.2.2⟩

end NocoTable

namespace NocoTable

structure MetaColumn where
  title : String
  system : Bool
  uidt : String
deriving DecidableEq, Repr

/-- Table.py lines 70-76 reduced to the observable part: the column list
of the table metadata, filtered by the system flag unless include_system
is set. -/
def get_columns (cols : List MetaColumn) (includeSystem : Bool) : List MetaColumn :=
  if includeSystem then cols else cols.filter (fun c => !c.system)

/-- Server effect of the relation-column POST of lines 237-241: a
non-system Links column carrying the requested title becomes visible. -/
def createdColumn (name : String) : MetaColumn := ⟨name, false, "Links"⟩

/-- Table.py lines 187-248: create_linked_column.  The result carries the
returned column (none models the Python None of line 248), the column
list of the calling table after the call, and the number of creation
requests issued. -/
def create_linked_column (cols targetCols : List MetaColumn) (name : String) :
    Except String (Option MetaColumn × List MetaColumn × Nat) :=
  match (get_columns cols false).find? (fun c => c.title == name) with
  | some c => .ok (some c, cols, 0)
  | none =>
    match (get_columns cols true).find? (fun c => c.title == "Id"),
          (get_columns targetCols true).find? (fun c => c.title == "Id") with
    | some _, some _ =>
      let cols2 := cols ++ [createdColumn name]
      .ok ((get_columns cols2 false).find? (fun c => c.title == name), cols2, 1)
    | _, _ => .error "Could not find ID columns for both tables"

/-- C8: create_linked_column is idempotent by title.  An existing column
of the requested title is returned unchanged with no creation request;
otherwise one creation request is issued, the fresh column is returned,
and a second call returns the same column issuing no further request. -/
theorem c8_idempotent_creation (cols targetCols : List MetaColumn) (name : String) :
    (∀ c, (get_columns cols false).find? (fun u => u.title == name) = some c →
      create_linked_column cols targetCols name = .ok (some c, cols, 0))
    ∧ ((get_columns cols false).find? (fun u => u.title == name) = none →
       ∀ i j, (get_columns cols true).find? (fun u => u.title == "Id") = some i →
        (get_columns targetCols true).find? (fun u => u.title == "Id") = some j →
        create_linked_column cols targetCols name =
          .ok (some (createdColumn name), cols ++ [createdColumn name], 1)
        ∧ create_linked_column (cols ++ [createdColumn name]) targetCols name =
          .ok (some (createdColumn name), cols ++ [createdColumn name], 0)) := by
  constructor
  · intro c hc
    simp [create_linked_column, hc]
  · intro hnone i j hi hj
    have hfind2 : (get_columns (cols ++ [createdColumn name]) false).find?
        (fun u => u.title == name) = some (createdColumn name) := by
      simp only [get_columns] at hnone ⊢
      rw [if_neg (by decide)] at hnone ⊢
      rw [List.filter_append, List.find?_append, hnone]
      simp [createdColumn]
    constructor
    · simp [create_linked_column, hnone, hi, hj, hfind2]
    · simp [create_linked_column, hfind2]

/-- Witness for C8 at a concrete input: the first call creates the column
with one request, the second returns it with none. -/
theorem c8_idempotent_creation_witness :
    create_linked_column [⟨"Id", true, "ID"⟩] [⟨"Id", true, "ID"⟩] "Books" =
      .ok (some (createdColumn "Books"), [⟨"Id", true, "ID"⟩, createdColumn "Books"], 1)
    ∧ create_linked_column [⟨"Id", true, "ID"⟩, createdColumn "Books"]
        [⟨"Id", true, "ID"⟩] "Books" =
      .ok (some (createdColumn "Books"), [⟨"Id", true, "ID"⟩, createdColumn "Books"], 0) := by
  have h := (c8_idempotent_creation [⟨"Id", true, "ID"⟩] [⟨"Id", true, "ID"⟩] "Books").2
    rfl ⟨"Id", true, "ID"⟩ ⟨"Id", true, "ID"⟩ rfl rfl
  exact ⟨h.1, h.2⟩

end NocoTable

namespace NocoTable

/-- Table titles are modelled as character lists so that the scanning of
get_duplicates can be embedded structurally. -/
structure DTable where
  dtitle : List Char
deriving DecidableEq, Repr

/-- The characters of the literal " copy". -/
def copyTok : List Char := [' ', 'c', 'o', 'p', 'y']

/-- Table.py line 55: re.match("^{title} copy(_\\d+)?$", t.title), for a
base title free of regular-expression metacharacters: the title matches
exactly "<title> copy" or "<title> copy_<digits>". -/
def matchesCopy (title t : List Char) : Bool :=
  if t = title ++ copyTok then true
  else if t.take (title.length + 6) = title ++ copyTok ++ ['_'] then
    !(t.drop (title.length + 6)).isEmpty
      && (t.drop (title.length + 6)).all Char.isDigit
  else false

/-- Head-digit test used by the findall scanner. -/
def headDigit : List Char → Bool
  | [] => false
  | c :: _ => c.isDigit

/-- Table.py line 56: int(re.findall("_(\\d+)", t.title)[0]) - the first
underscore immediately followed by a digit, anywhere in the full title,
taken with its maximal digit run. -/
def firstNum : List Char → Option Nat
  | [] => none
  | c :: rest =>
    if c = '_' ∧ headDigit rest = true then
      some (digitsVal (rest.takeWhile Char.isDigit))
    else firstNum rest

/-- Table.py lines 56-60: the dictionary key of a matching table (0 when
findall found nothing). -/
def keyOf (t : List Char) : Nat := (firstNum t).getD 0

/-- Python dict assignment d[k] = v on an association list whose keys are
unique: replace in place, or append a fresh binding. -/
def upsert (d : List (Nat × DTable)) (k : Nat) (v : DTable) :
    List (Nat × DTable) :=
  if d.any (fun p => p.1 == k) then
    d.map (fun p => if p.1 == k then (k, v) else p)
  else d ++ [(k, v)]

/-- Table.py lines 53-60: the duplicates dictionary. -/
def buildDups (title : List Char) (ts : List DTable) : List (Nat × DTable) :=
  ts.foldl
    (fun d t => if matchesCopy title t.dtitle then upsert d (keyOf t.dtitle) t
     else d) []

def keyGE (a b : Nat × DTable) : Prop := b.1 ≤ a.1

instance : DecidableRel keyGE := fun a b => inferInstanceAs (Decidable (b.1 ≤ a.1))

instance : IsTotal (Nat × DTable) keyGE := ⟨fun a b => le_total b.1 a.1⟩

instance : IsTrans (Nat × DTable) keyGE := ⟨fun _ _ _ h1 h2 => le_trans h2 h1⟩

/-- Table.py line 62: sorted(duplicates.items(), reverse=True) over the
unique-keyed dictionary, then the values.  With pairwise-distinct keys
the descending arrangement is unique, so insertion sort embeds the
Python sort faithfully. -/
def get_duplicates (title : List Char) (ts : List DTable) : List DTable :=
  (List.insertionSort keyGE (buildDups title ts)).map (fun p => p.2)

end NocoTable


namespace NocoTable

theorem headDigit_append (a b : List Char) (ha : a ≠ []) :
    headDigit (a ++ b) = headDigit a := by
  cases a with
  | nil => exact absurd rfl ha
  | cons c rest => rfl

theorem takeWhile_append_of_head (a b : List Char)
    (hb : headDigit b = false) :
    (a ++ b).takeWhile Char.isDigit = a.takeWhile Char.isDigit := by
  induction a with
  | nil =>
    simp only [List.nil_append, List.takeWhile_nil]
    cases b with
    | nil => rfl
    | cons c rest =>
      simp only [headDigit] at hb
      simp [List.takeWhile_cons, hb]
  | cons c rest ih =>
    simp only [List.cons_append, List.takeWhile_cons]
    cases hc : c.isDigit <;> simp [hc, ih]

theorem takeWhile_of_all_digits (ds : List Char) (h : ds.all Char.isDigit = true) :
    ds.takeWhile Char.isDigit = ds := by
  induction ds with
  | nil => rfl
  | cons c rest ih =>
    simp only [List.all_cons, Bool.and_eq_true] at h
    simp [List.takeWhile_cons, h.1, ih h.2]

theorem firstNum_append_none (a b : List Char) (ha : firstNum a = none)
    (hb : headDigit b = false) :
    firstNum (a ++ b) = firstNum b := by
  induction a with
  | nil => rfl
  | cons c rest ih =>
    cases rest with
    | nil =>
      show firstNum (c :: b) = firstNum b
      rw [firstNum, if_neg (by simp [hb])]
    | cons e rest2 =>
      rw [firstNum] at ha
      rw [List.cons_append, firstNum]
      rw [headDigit_append (e :: rest2) b (by simp)]
      by_cases hcond : c = '_' ∧ headDigit (e :: rest2) = true
      · rw [if_pos hcond] at ha
        cases ha
      · rw [if_neg hcond] at ha ⊢
        exact ih ha

theorem firstNum_append_some (a b : List Char) (n : Nat)
    (ha : firstNum a = some n) (hb : headDigit b = false) :
    firstNum (a ++ b) = some n := by
  induction a with
  | nil => cases ha
  | cons c rest ih =>
    cases rest with
    | nil =>
      rw [firstNum] at ha
      simp only [headDigit, Bool.false_eq_true, and_false, if_false] at ha
      cases ha
    | cons e rest2 =>
      rw [firstNum] at ha
      rw [List.cons_append, firstNum]
      rw [headDigit_append (e :: rest2) b (by simp)]
      by_cases hcond : c = '_' ∧ headDigit (e :: rest2) = true
      · rw [if_pos hcond] at ha ⊢
        rw [← ha]
        congr 1
        rw [List.cons_append] at *
        exact congrArg digitsVal (takeWhile_append_of_head (e :: rest2) b hb)
      · rw [if_neg hcond] at ha ⊢
        exact ih ha

theorem firstNum_copyTok_suffix (ds : List Char) (hne : ds ≠ [])
    (hdig : ds.all Char.isDigit = true) :
    firstNum (copyTok ++ '_' :: ds) = some (digitsVal ds) := by
  cases ds with
  | nil => exact absurd rfl hne
  | cons d rest =>
    have hd : d.isDigit = true := by
      simp only [List.all_cons, Bool.and_eq_true] at hdig
      exact hdig.1
    show firstNum (' ' :: 'c' :: 'o' :: 'p' :: 'y' :: '_' :: d :: rest)
      = some (digitsVal (d :: rest))
    rw [firstNum, if_neg (by simp)]
    rw [firstNum, if_neg (by simp)]
    rw [firstNum, if_neg (by simp)]
    rw [firstNum, if_neg (by simp)]
    rw [firstNum, if_neg (by simp)]
    rw [firstNum, if_pos ⟨rfl, by simp [headDigit, hd]⟩]
    rw [takeWhile_of_all_digits (d :: rest) hdig]

theorem keyOf_plain_copy (title : List Char) (h1 : firstNum title = none) :
    keyOf (title ++ copyTok) = 0 := by
  unfold keyOf
  rw [firstNum_append_none title copyTok h1 (by decide)]
  rfl

theorem keyOf_suffix_copy (title ds : List Char) (h1 : firstNum title = none)
    (hne : ds ≠ []) (hdig : ds.all Char.isDigit = true) :
    keyOf (title ++ copyTok ++ '_' :: ds) = digitsVal ds := by
  unfold keyOf
  rw [List.append_assoc,
    firstNum_append_none title (copyTok ++ '_' :: ds) h1 rfl,
    firstNum_copyTok_suffix ds hne hdig]
  rfl

end NocoTable

namespace NocoTable

theorem copyTok_underscore_len (title : List Char) :
    (title ++ copyTok ++ ['_']).length = title.length + 6 := by
  simp [copyTok]

theorem matchesCopy_iff (title t : List Char) :
    matchesCopy title t = true ↔
      t = title ++ copyTok ∨
      ∃ ds, t = title ++ copyTok ++ '_' :: ds ∧ ds ≠ [] ∧
        ds.all Char.isDigit = true := by
  unfold matchesCopy
  by_cases h1 : t = title ++ copyTok
  · simp [h1]
  · rw [if_neg h1]
    by_cases h2 : t.take (title.length + 6) = title ++ copyTok ++ ['_']
    · rw [if_pos h2]
      constructor
      · intro h
        simp only [Bool.and_eq_true, Bool.not_eq_true', List.isEmpty_eq_false] at h
        right
        refine ⟨t.drop (title.length + 6), ?_, ?_, h.2⟩
        · conv_lhs => rw [← List.take_append_drop (title.length + 6) t]
          rw [h2]
          simp
        · intro hnil
          rw [hnil] at h
          exact h.1 rfl
      · intro h
        rcases h with h | ⟨ds, hds, hne, hdig⟩
        · exact absurd h h1
        · have hdrop : t.drop (title.length + 6) = ds := by
            rw [hds, show title ++ copyTok ++ '_' :: ds
              = (title ++ copyTok ++ ['_']) ++ ds by simp]
            exact List.drop_left' (copyTok_underscore_len title)
          rw [hdrop]
          simp [hne, hdig]
    · rw [if_neg h2]
      constructor
      · intro h
        cases h
      · intro h
        rcases h with h | ⟨ds, hds, hne, hdig⟩
        · exact absurd h h1
        · exfalso
          apply h2
          rw [hds, show title ++ copyTok ++ '_' :: ds
            = (title ++ copyTok ++ ['_']) ++ ds by simp]
          exact List.take_left' (copyTok_underscore_len title)

/-- The key the specification describes: 0 for "<title> copy", the
numeric suffix for "<title> copy_<n>". -/
def claimKey (title t : List Char) : Nat :=
  if t = title ++ copyTok then 0 else digitsVal (t.drop (title.length + 6))

theorem keyOf_eq_claimKey (title t : List Char) (h1 : firstNum title = none)
    (hm : matchesCopy title t = true) :
    keyOf t = claimKey title t := by
  rcases (matchesCopy_iff title t).mp hm with h | ⟨ds, hds, hne, hdig⟩
  · rw [h, claimKey, if_pos rfl, keyOf_plain_copy title h1]
  · have hneq : t ≠ title ++ copyTok := by
      rw [hds]
      intro h
      have hlen := congrArg List.length h
      simp [copyTok] at hlen
    have hdrop : t.drop (title.length + 6) = ds := by
      rw [hds, show title ++ copyTok ++ '_' :: ds
        = (title ++ copyTok ++ ['_']) ++ ds by simp]
      exact List.drop_left' (copyTok_underscore_len title)
    rw [claimKey, if_neg hneq, hdrop, hds,
      keyOf_suffix_copy title ds h1 hne hdig]

end NocoTable

namespace NocoTable

/-- The key-table pairs the duplicates dictionary holds when no key
collides: one per matching table, in encounter order. -/
def dupPairs (title : List Char) (ts : List DTable) : List (Nat × DTable) :=
  (ts.filter (fun t => matchesCopy title t.dtitle)).map
    (fun t => (keyOf t.dtitle, t))

theorem upsert_of_fresh (d : List (Nat × DTable)) (k : Nat) (v : DTable)
    (h : ¬ k ∈ d.map Prod.fst) : upsert d k v = d ++ [(k, v)] := by
  unfold upsert
  rw [if_neg]
  intro hany
  rw [List.any_eq_true] at hany
  rcases hany with ⟨p, hp, hpk⟩
  exact h (List.mem_map.mpr ⟨p, hp, by simpa using hpk⟩)

theorem buildDups_go (title : List Char) :
    ∀ (ts : List DTable) (d : List (Nat × DTable)),
    ((d ++ dupPairs title ts).map Prod.fst).Nodup →
    ts.foldl (fun d t => if matchesCopy title t.dtitle then
        upsert d (keyOf t.dtitle) t else d) d
      = d ++ dupPairs title ts := by
  intro ts
  induction ts with
  | nil =>
    intro d h
    simp [dupPairs]
  | cons t ts ih =>
    intro d h
    rw [List.foldl_cons]
    by_cases hm : matchesCopy title t.dtitle = true
    · have hdp : dupPairs title (t :: ts)
          = (keyOf t.dtitle, t) :: dupPairs title ts := by
        simp [dupPairs, hm]
      rw [hdp] at h
      have hfresh : ¬ keyOf t.dtitle ∈ d.map Prod.fst := by
        intro hmem
        rw [List.map_append] at h
        rcases List.nodup_append.mp h with ⟨_, _, hdisj⟩
        exact hdisj hmem (by simp)
      rw [if_pos hm, upsert_of_fresh d _ t hfresh]
      have hcond : (((d ++ [(keyOf t.dtitle, t)]) ++ dupPairs title ts).map
          Prod.fst).Nodup := by
        rw [List.append_assoc]
        exact h
      rw [ih (d ++ [(keyOf t.dtitle, t)]) hcond, hdp, List.append_assoc]
      rfl
    · have hmf : matchesCopy title t.dtitle = false := by
        cases hb : matchesCopy title t.dtitle
        · rfl
        · exact absurd hb hm
      have hdp : dupPairs title (t :: ts) = dupPairs title ts := by
        simp [dupPairs, hmf]
      rw [hdp] at h
      rw [if_neg (by simp [hmf]), ih d h, hdp]

theorem buildDups_eq (title : List Char) (ts : List DTable)
    (h : ((dupPairs title ts).map Prod.fst).Nodup) :
    buildDups title ts = dupPairs title ts :=
  buildDups_go title ts [] (by simpa using h)

end NocoTable

namespace NocoTable

/-- C9 as amended: when the base title contains no underscore-digit group
of its own and the keys of the matching tables are pairwise distinct,
get_duplicates returns exactly the matching tables, ordered by descending
key, where "<title> copy" has key 0 and "<title> copy_<n>" has key n. -/
theorem c9_duplicate_ordering (title : List Char) (ts : List DTable)
    (h1 : firstNum title = none)
    (hdk : ((ts.filter (fun t => matchesCopy title t.dtitle)).map
        (fun t => claimKey title t.dtitle)).Nodup) :
    (get_duplicates title ts).Perm
      (ts.filter (fun t => matchesCopy title t.dtitle))
    ∧ ((get_duplicates title ts).map
        (fun t => claimKey title t.dtitle)).Sorted (fun a b => b ≤ a) := by
  set matched := ts.filter (fun t => matchesCopy title t.dtitle) with hmatched
  have hkeys : ∀ t ∈ matched, keyOf t.dtitle = claimKey title t.dtitle := by
    intro t ht
    rw [hmatched] at ht
    have hmt := List.of_mem_filter ht
    exact keyOf_eq_claimKey title t.dtitle h1 (by simpa using hmt)
  have hfst : (dupPairs title ts).map Prod.fst
      = matched.map (fun t => claimKey title t.dtitle) := by
    unfold dupPairs
    rw [← hmatched, List.map_map]
    exact List.map_congr_left hkeys
  have hnd : ((dupPairs title ts).map Prod.fst).Nodup := by
    rw [hfst]
    exact hdk
  have hbd : buildDups title ts = dupPairs title ts := buildDups_eq title ts hnd
  have hglr : get_duplicates title ts
      = (List.insertionSort keyGE (dupPairs title ts)).map (fun p => p.2) := by
    unfold get_duplicates
    rw [hbd]
  have hperm : (List.insertionSort keyGE (dupPairs title ts)).Perm
      (dupPairs title ts) := List.perm_insertionSort keyGE _
  have hsnd : (dupPairs title ts).map (fun p : Nat × DTable => p.2) = matched := by
    unfold dupPairs
    rw [← hmatched, List.map_map]
    rw [show ((fun p : Nat × DTable => p.2) ∘ (fun t => (keyOf t.dtitle, t))) = id
      from rfl, List.map_id]
  constructor
  · rw [hglr, ← hsnd]
    exact hperm.map _
  · have hsorted : (List.insertionSort keyGE (dupPairs title ts)).Pairwise keyGE :=
      List.sorted_insertionSort keyGE _
    have hpt : ∀ p ∈ List.insertionSort keyGE (dupPairs title ts),
        claimKey title p.2.dtitle = p.1 := by
      intro p hp
      have hpd : p ∈ dupPairs title ts := hperm.mem_iff.mp hp
      unfold dupPairs at hpd
      rcases List.mem_map.mp hpd with ⟨t, ht, hpe⟩
      rw [← hmatched] at ht
      rw [← hpe]
      exact (hkeys t ht).symm
    rw [hglr, List.map_map]
    have hmc : (List.insertionSort keyGE (dupPairs title ts)).map
        ((fun t => claimKey title t.dtitle) ∘ (fun p : Nat × DTable => p.2))
        = (List.insertionSort keyGE (dupPairs title ts)).map Prod.fst :=
      List.map_congr_left (by intro p hp; exact hpt p hp)
    rw [hmc]
    exact List.Pairwise.map Prod.fst (fun a b hab => hab) hsorted

/-- Counterexample to C9: with base title "Report_2" the table
"Report_2 copy" is keyed by the underscore group of the base title (2,
not 0), collides with "Report_2 copy_1" (also keyed 2), and is
displaced, so only one of the two matching tables is returned. -/
theorem c9_counterexample :
    get_duplicates "Report_2".toList
        [⟨"Report_2 copy".toList⟩, ⟨"Report_2 copy_1".toList⟩]
      = [⟨"Report_2 copy_1".toList⟩]
    ∧ get_duplicates "Report_2".toList
        [⟨"Report_2 copy".toList⟩, ⟨"Report_2 copy_1".toList⟩]
      ≠ [⟨"Report_2 copy_1".toList⟩, ⟨"Report_2 copy".toList⟩] :=
  ⟨by decide, by decide⟩

/-- Witness for the amended C9: the Orders example of the claim. -/
theorem c9_duplicate_ordering_witness :
    (get_duplicates "Orders".toList
        [⟨"Orders copy".toList⟩, ⟨"Orders copy_2".toList⟩,
          ⟨"Orders copy_1".toList⟩]).Perm
      ([(⟨"Orders copy".toList⟩ : DTable), ⟨"Orders copy_2".toList⟩,
          ⟨"Orders copy_1".toList⟩].filter
        (fun t => matchesCopy "Orders".toList t.dtitle))
    ∧ ((get_duplicates "Orders".toList
        [⟨"Orders copy".toList⟩, ⟨"Orders copy_2".toList⟩,
          ⟨"Orders copy_1".toList⟩]).map
        (fun t => claimKey "Orders".toList t.dtitle)).Sorted (fun a b => b ≤ a) :=
  c9_duplicate_ordering "Orders".toList
    [⟨"Orders copy".toList⟩, ⟨"Orders copy_2".toList⟩, ⟨"Orders copy_1".toList⟩]
    (by decide) (by decide)

end NocoTable

namespace NocoTable

/-- C10: the numeric key of a matching table is the first underscore-digit
group found anywhere in its full title.  When the base title itself
carries such a group with value n, the duplicate "<title> copy" is keyed
n instead of 0, collides with "<title> copy_<n>", and is displaced from
the returned list. -/
theorem c10_key_from_whole_title (title ds : List Char) (n : Nat)
    (hn : firstNum title = some n)
    (hne : ds ≠ []) (hdig : ds.all Char.isDigit = true) :
    keyOf (title ++ copyTok) = n
    ∧ keyOf (title ++ copyTok ++ '_' :: ds) = n
    ∧ get_duplicates title
        [⟨title ++ copyTok⟩, ⟨title ++ copyTok ++ '_' :: ds⟩]
      = [⟨title ++ copyTok ++ '_' :: ds⟩] := by
  have hb1 : headDigit copyTok = false := rfl
  have hb2 : headDigit (copyTok ++ '_' :: ds) = false := rfl
  have k1 : keyOf (title ++ copyTok) = n := by
    unfold keyOf
    rw [firstNum_append_some title copyTok n hn hb1]
    rfl
  have k2 : keyOf (title ++ copyTok ++ '_' :: ds) = n := by
    unfold keyOf
    rw [List.append_assoc, firstNum_append_some title (copyTok ++ '_' :: ds) n hn hb2]
    rfl
  have m1 : matchesCopy title (title ++ copyTok) = true := by
    unfold matchesCopy
    rw [if_pos rfl]
  have m2 : matchesCopy title (title ++ copyTok ++ '_' :: ds) = true :=
    (matchesCopy_iff title _).mpr (Or.inr ⟨ds, rfl, hne, hdig⟩)
  refine ⟨k1, k2, ?_⟩
  unfold get_duplicates buildDups
  rw [List.foldl_cons]
  rw [if_pos (show matchesCopy title (DTable.mk (title ++ copyTok)).dtitle = true
    from m1)]
  rw [List.foldl_cons]
  rw [if_pos (show matchesCopy title
    (DTable.mk (title ++ copyTok ++ '_' :: ds)).dtitle = true from m2)]
  rw [List.foldl_nil]
  rw [show upsert [] (keyOf (DTable.mk (title ++ copyTok)).dtitle)
      ⟨title ++ copyTok⟩
    = [(keyOf (title ++ copyTok), ⟨title ++ copyTok⟩)] from rfl]
  have hk1 : (keyOf (DTable.mk (title ++ copyTok)).dtitle) = n := k1
  have hk2 : (keyOf (DTable.mk (title ++ copyTok ++ '_' :: ds)).dtitle) = n := k2
  rw [show keyOf (title ++ copyTok) = n from k1, hk2]
  rw [show upsert [(n, (⟨title ++ copyTok⟩ : DTable))] n
      ⟨title ++ copyTok ++ '_' :: ds⟩
    = [(n, ⟨title ++ copyTok ++ '_' :: ds⟩)] by simp [upsert]]
  simp [List.insertionSort, List.orderedInsert]

/-- Witness for C10 at a concrete input: the base title "Report_2". -/
theorem c10_key_from_whole_title_witness :
    keyOf ("Report_2".toList ++ copyTok) = 2
    ∧ keyOf ("Report_2".toList ++ copyTok ++ '_' :: ['2']) = 2
    ∧ get_duplicates "Report_2".toList
        [⟨"Report_2".toList ++ copyTok⟩,
          ⟨"Report_2".toList ++ copyTok ++ '_' :: ['2']⟩]
      = [⟨"Report_2".toList ++ copyTok ++ '_' :: ['2']⟩] :=
  c10_key_from_whole_title "Report_2".toList ['2'] 2 (by decide) (by decide)
    (by decide)

end NocoTable
